import Mathlib

/-!
Verification of the `flow` asynchronous-execution library (sender/receiver
pipelines, schedulers, async scopes) against its natural-language
specification.  The definitions below are a shallow embedding of the C++
sources under `src/include/flow/execution/`: each Lean definition is
translated from the member function named in its doc comment.  Completion
channels are modelled by the `Completion` sum type; the homogeneous value
type `α` stands for the template value parameters, and tuples of completion
arguments are modelled as lists.
-/

namespace Flow

/-- The three completion channels of a receiver (`set_value(args...)`,
`set_error(e)`, `set_stopped()`); a value completion carries its argument
tuple as a list. -/
inductive Completion (ε α : Type) where
  | value (vs : List α)
  | error (e : ε)
  | stopped
deriving DecidableEq

/-- Whether a completion is on the value channel. -/
def Completion.isValue {ε α : Type} : Completion ε α → Bool
  | .value _ => true
  | _ => false

/-- Whether a completion is on the error channel. -/
def Completion.isError {ε α : Type} : Completion ε α → Bool
  | .error _ => true
  | _ => false

/-! ## Sender factories (`factories.hpp`)

`_just_operation::start` delivers `set_value(values...)`,
`_just_error_operation::start` delivers `set_error(error_)`, and
`_just_stopped_operation::start` delivers `set_stopped()`. -/

/-- Completion produced by `_just_sender`'s operation on `start()`. -/
def justCompletion {ε α : Type} (vs : List α) : Completion ε α :=
  .value vs

/-- Completion produced by `_just_error_sender`'s operation on `start()`. -/
def justErrorCompletion {ε α : Type} (e : ε) : Completion ε α :=
  .error e

/-- Completion produced by `_just_stopped_sender`'s operation on `start()`. -/
def justStoppedCompletion {ε α : Type} : Completion ε α :=
  .stopped

/-! ## `then` adaptor (`then.hpp`)

`_then_receiver` forwards error and stopped unchanged; on `set_value(args...)`
it invokes the user function inside a try/catch.  The user function is
modelled as `f : List α → Except ε (Option α)`: `.error e` models a thrown
exception caught by the `catch (...)` block, `.ok none` models the
compile-time `is_void_v` branch (void-returning `f`, empty downstream value),
and `.ok (some b)` the non-void branch. -/

/-- Downstream completion computed by `_then_sender::_then_receiver` from the
upstream completion, following `set_value` / `set_error` / `set_stopped` of
`then.hpp`. -/
def thenReceiverTransform {ε α : Type} (f : List α → Except ε (Option α)) :
    Completion ε α → Completion ε α
  | .value args =>
    match f args with
    | .error e => .error e
    | .ok none => .value []
    | .ok (some b) => .value [b]
  | .error e => .error e
  | .stopped => .stopped

/-! ## `upon_error` adaptor (`upon.hpp`)

`_upon_error_receiver` forwards value and stopped unchanged; on
`set_error(e)` it invokes `f(e)` inside a try/catch and delivers the result
on the value channel (empty for void-returning `f`). -/

/-- Downstream completion computed by `_upon_error_sender::_upon_error_receiver`
from the upstream completion (`upon.hpp`). -/
def uponErrorTransform {ε α : Type} (f : ε → Except ε (Option α)) :
    Completion ε α → Completion ε α
  | .value vs => .value vs
  | .error e =>
    match f e with
    | .error e2 => .error e2
    | .ok none => .value []
    | .ok (some b) => .value [b]
  | .stopped => .stopped

/-! ## `sync_wait` consumer (`sync_wait.hpp`)

`_sync_wait_receiver` stores the delivered completion into the variant
`_sync_wait_state::result` (monostate | tuple | exception_ptr); after the
wait, `_sync_wait_with_types_t::operator()` visits the variant: monostate
yields `nullopt`, a tuple yields the engaged optional, an exception is
rethrown on the calling thread.  Rethrowing is modelled by `Except.error`. -/

/-- The variant `_sync_wait_state::result`. -/
inductive SyncWaitResult (ε α : Type) where
  | monostate
  | tuple (vs : List α)
  | exc (e : ε)
deriving DecidableEq

/-- What `_sync_wait_receiver`'s completion methods store into the state:
`set_value(args...)` emplaces the tuple, `set_error` the exception,
`set_stopped` the monostate. -/
def syncWaitStore {ε α : Type} : Completion ε α → SyncWaitResult ε α
  | .value vs => .tuple vs
  | .error e => .exc e
  | .stopped => .monostate

/-- The `std::visit` at the end of `_sync_wait_with_types_t::operator()`:
monostate yields `none`, a stored tuple yields `some`, a stored exception is
rethrown. -/
def syncWaitVisit {ε α : Type} : SyncWaitResult ε α → Except ε (Option (List α))
  | .monostate => .ok none
  | .tuple vs => .ok (some vs)
  | .exc e => .error e

/-- `sync_wait` applied to a sender whose operation delivers the completion
`c`: connect, start, wait for `c` to be stored, then visit the result. -/
def syncWait {ε α : Type} (c : Completion ε α) : Except ε (Option (List α)) :=
  syncWaitVisit (syncWaitStore c)

/-! ## Execution policies and `bulk_chunked` (`execution_policy.hpp`, `bulk.hpp`)

`_bulk_chunked_receiver::set_value` calls `fun_(0, shape_, args...)` exactly
once when `shape_ > 0` (the whole range as a single chunk), then forwards the
original values; a throw from `fun_` is caught and delivered on the error
channel.  The policy member is carried but never consulted in `set_value`. -/

/-- Execution policy tags (`seq`, `par`, `unseq`, `par_unseq`). -/
inductive ExecPolicy where
  | seq
  | par
  | unseq
  | parUnseq
deriving DecidableEq

/-- Result of `_bulk_chunked_receiver::set_value`: the list of `(begin, end)`
invocations made on `fun_`, and the downstream completion.  `f` returning
`.error e` models a thrown exception caught by the `catch (...)` block. -/
def bulkChunkedSetValue {ε α : Type} (pol : ExecPolicy) (shape : Nat)
    (f : Nat → Nat → List α → Except ε Unit) (args : List α) :
    List (Nat × Nat) × Completion ε α :=
  match pol with
  | _ =>
    if 0 < shape then
      match f 0 shape args with
      | .ok _ => ([(0, shape)], .value args)
      | .error e => ([(0, shape)], .error e)
    else ([], .value args)

/-! ## Async scopes (`counting_scope.hpp`)

`counting_scope` and `simple_counting_scope` share identical state-machine
code for `try_associate_impl`, `disassociate_impl` and
`join_operation::start`; `counting_scope` additionally owns a
`std::stop_source`.  The scope state is the pair of the `state_` and
`count_` atomics plus the stop flag (always `false` for the simple scope). -/

/-- The `state_` constants of both scope classes. -/
inductive ScopeState where
  | unused
  | opened
  | unusedAndClosed
  | closed
  | joining
  | joined
deriving DecidableEq

/-- State carried by a `counting_scope`: `state_`, `count_`, and whether
`stop_source_.request_stop()` has been called.  For
`simple_counting_scope` the last field is unused. -/
structure Scope where
  state : ScopeState
  count : Nat
  stopRequested : Bool
deriving DecidableEq

/-- A freshly constructed scope: `state_{state_unused}`, `count_{0}`. -/
def Scope.fresh : Scope :=
  { state := .unused, count := 0, stopRequested := false }

/-- `counting_scope::try_associate_impl` (identical in
`simple_counting_scope`): from `unused` move to `open` and increment the
count; from `open` increment the count; otherwise fail.  Returns the
success flag and the updated scope. -/
def tryAssociateImpl (s : Scope) : Bool × Scope :=
  match s.state with
  | .unused => (true, { s with state := .opened, count := s.count + 1 })
  | .opened => (true, { s with count := s.count + 1 })
  | _ => (false, s)

/-- `counting_scope::disassociate_impl` (identical in
`simple_counting_scope`): decrement the count; if the old count was 1 and the
state is `joining`, move to `joined`. -/
def disassociateImpl (s : Scope) : Scope :=
  let oldCount := s.count
  let s2 : Scope := { s with count := s.count - 1 }
  if oldCount = 1 ∧ s2.state = .joining then { s2 with state := .joined }
  else s2

/-- Result of starting `join_operation`: the scope afterwards and whether
`set_value` was delivered to the join receiver during `start()`. -/
structure JoinStartResult where
  scope : Scope
  valueDelivered : Bool
deriving DecidableEq

/-- `counting_scope::join_operation::start` (identical in
`simple_counting_scope`): exchange `state_` to `joining`; if `count_` is 0,
store `joined` and call `set_value()`; otherwise the source also calls
`set_value()` immediately (its else-branch comments say the receiver would be
stored for later completion, but the code completes at once). -/
def joinOperationStart (s : Scope) : JoinStartResult :=
  let s1 : Scope := { s with state := .joining }
  if s1.count = 0 then
    { scope := { s1 with state := .joined }, valueDelivered := true }
  else
    { scope := s1, valueDelivered := true }

/-! ## The scope token's `wrap` customisation (`counting_scope.hpp`)

`counting_scope::token::wrap(sndr)` returns `stop_when_sender{sndr, scope's
stop token}`, whose `connect(rcvr)` connects the inner sender to
`stop_receiver{rcvr, stop_token_}`.  `stop_receiver::set_value` delivers
`set_stopped` when the scope's stop token is already stop-requested and
forwards the values otherwise; `set_error` and `set_stopped` forward;
`stop_receiver::get_env` returns `get_env(rcvr_)`, the downstream receiver's
own environment, unmodified. -/

/-- A receiver environment.  The only query the claims need is
`get_stop_token`; stop tokens are identified by the id of their stop
source. -/
structure Env where
  stopTokenId : Nat
deriving DecidableEq

/-- `counting_scope::token::stop_receiver::get_env`: returns
`flow::execution::get_env(rcvr_)` — the wrapped downstream receiver's
environment, ignoring the stored `stop_token_`. -/
def stopReceiverGetEnv (downstreamEnv : Env) (scopeStopTokenId : Nat) : Env :=
  let _ := scopeStopTokenId
  downstreamEnv

/-- Modelled from the spec: the environment the claim says the wrap
receiver presents — the downstream environment with the scope's stop token
injected.  Used only to compare the claim's wording against
`stopReceiverGetEnv`, which is translated from the source. -/
def wrapEnvClaimed (downstreamEnv : Env) (scopeStopTokenId : Nat) : Env :=
  { downstreamEnv with stopTokenId := scopeStopTokenId }

/-- `counting_scope::token::stop_receiver`'s completion methods, as a
transformation of the inner sender's completion.  `stopRequested` is the
value of `stop_token_.stop_requested()` at the time the inner sender
completes. -/
def stopReceiverTransform {ε α : Type} (stopRequested : Bool) :
    Completion ε α → Completion ε α
  | .value vs => if stopRequested then .stopped else .value vs
  | .error e => .error e
  | .stopped => .stopped

/-- Everything observable about one `connect`/`start` of the sender returned
by `token.wrap(sndr)`: the environment the inner sender sees through its
receiver, and the completion delivered downstream when the inner sender
completes with `inner`. -/
structure WrapRun (ε α : Type) where
  innerEnv : Env
  downstream : Completion ε α
deriving DecidableEq

/-- One run of `stop_when_sender`: connecting wires the inner sender to
`stop_receiver{rcvr, stop token of the scope}`; the inner sender observes
`stop_receiver::get_env()` and its completion is transformed by the
`stop_receiver` completion methods. -/
def wrapConnectRun {ε α : Type} (scopeStopTokenId : Nat) (stopRequested : Bool)
    (downstreamEnv : Env) (inner : Completion ε α) : WrapRun ε α :=
  { innerEnv := stopReceiverGetEnv downstreamEnv scopeStopTokenId,
    downstream := stopReceiverTransform stopRequested inner }

/-! ## `spawn`, `start_detached` and their receivers
(`scope_association.hpp`, `sync_wait.hpp`)

`spawn(sndr, token)` builds `associate(sndr, token)`, connects it to
`spawn_receiver{}` and starts the operation.  `associate`'s `nest_sender`,
on `connect`, calls `token.try_associate()`: on failure the operation is a
stub delivering `set_stopped` on `start()`; on success the downstream
receiver is wrapped in `nest_receiver` (which calls `disassociate()` before
forwarding any completion) and the inner sender is wrapped by
`token.wrap(sndr)` (the `stop_when_sender` above).

`spawn_receiver`'s three completion methods are all empty no-ops — including
`set_error`, whose body is `{}`.  `_start_detached_receiver::set_error`, by
contrast, calls `std::terminate()`. -/

/-- Observable process-level effect of invoking a fire-and-forget receiver's
completion method. -/
inductive Effect where
  | noop
  | terminate
deriving DecidableEq

/-- Effect of delivering a completion to `spawn_receiver`
(`scope_association.hpp`): every channel, `set_error` included, has an empty
body. -/
def spawnReceiverEffect {ε α : Type} : Completion ε α → Effect
  | .value _ => .noop
  | .error _ => .noop
  | .stopped => .noop

/-- Effect of delivering a completion to
`_start_detached_detail::_start_detached_receiver` (`sync_wait.hpp`):
`set_error` calls `std::terminate()`; value and stopped are discarded. -/
def startDetachedReceiverEffect {ε α : Type} : Completion ε α → Effect
  | .value _ => .noop
  | .error _ => .terminate
  | .stopped => .noop

/-- One run of `spawn(sndr, token)` against a scope in state `s`, where the
inner sender's own completion is `inner`: `connect` performs
`try_associate`; on failure the stub operation delivers `set_stopped` to
`spawn_receiver`; on success the inner completion passes through
`stop_receiver` (the token's `wrap`) and then `nest_receiver`, which
disassociates before forwarding to `spawn_receiver`.  Returns the scope
afterwards and the process-level effect on the spawn receiver. -/
def spawnRun {ε α : Type} (s : Scope) (inner : Completion ε α) : Scope × Effect :=
  let assoc := tryAssociateImpl s
  if assoc.1 then
    let s1 := assoc.2
    let wrapped := stopReceiverTransform s1.stopRequested inner
    let s2 := disassociateImpl s1
    (s2, spawnReceiverEffect wrapped)
  else
    (assoc.2, spawnReceiverEffect (Completion.stopped (ε := ε) (α := α)))

/-! ## `when_all` combinator (`when_all.hpp`)

`_when_all_operation` holds one `_value_holder` slot per child, an atomic
`completed_` counter and an `error_occurred_` flag.  Each child's
`_inner_receiver<I>::set_value(args...)` stores the value into slot `I`
under the mutex, increments the counter, and — when the counter reaches `N`
with no error — calls `send_values`, which emits
`set_value(slot₀.get(), …, slot_{N-1}.get())` in child declaration order.
`start()` with zero children calls `set_value()` immediately.  Children may
complete in any order; the order is modelled as the list of child indices in
completion order. -/

/-- The mutable fields of `_when_all_operation`: `values_`, `completed_`,
`error_occurred_`. -/
structure WhenAllState (n : Nat) (α : Type) where
  slots : Fin n → Option α
  completed : Nat
  errorOccurred : Bool

/-- `_when_all_operation` as constructed: empty slots, counter 0, no
error. -/
def whenAllInitState (n : Nat) (α : Type) : WhenAllState n α :=
  { slots := fun _ => none, completed := 0, errorOccurred := false }

/-- `_when_all_operation::send_values`: read every slot in child declaration
order (`std::get<Is>(values_).get()...`).  Reading an empty slot is
undefined in the source; it is modelled by `Option.getD default`. -/
def whenAllSendValues {α : Type} [Inhabited α] (n : Nat)
    (slots : Fin n → Option α) : List α :=
  (List.finRange n).map fun j => (slots j).getD default

/-- `_inner_receiver<I>::set_value(v)`: store `v` into slot `i`, increment
`completed_`, and if the new count equals `n` with no error recorded, emit
the aggregated value completion.  Returns the new state and the emission (if
any). -/
def whenAllChildSetValue {α : Type} [Inhabited α] {n : Nat}
    (st : WhenAllState n α) (i : Fin n) (v : α) :
    WhenAllState n α × Option (List α) :=
  let slots2 := Function.update st.slots i (some v)
  let count := st.completed + 1
  let st2 : WhenAllState n α :=
    { slots := slots2, completed := count, errorOccurred := st.errorOccurred }
  if count = n ∧ st2.errorOccurred = false then
    (st2, some (whenAllSendValues n slots2))
  else
    (st2, none)

/-- Deliver the children's value completions in the given completion order
(child `i` completes with `v i`); the result is the first aggregated
emission, if any. -/
def whenAllRunChildren {α : Type} [Inhabited α] {n : Nat} (v : Fin n → α) :
    List (Fin n) → WhenAllState n α → Option (List α)
  | [], _ => none
  | i :: rest, st =>
    let step := whenAllChildSetValue st i (v i)
    match step.2 with
    | some out => some out
    | none => whenAllRunChildren v rest step.1

/-- `_when_all_operation::start`: with zero children, `set_value()` at once;
otherwise start every child and let them complete in the order given. -/
def whenAllStart {α : Type} [Inhabited α] (n : Nat) (v : Fin n → α)
    (order : List (Fin n)) : Option (List α) :=
  if n = 0 then some []
  else whenAllRunChildren v order (whenAllInitState n α)

/-! ## `retry_n` (`retry_n.hpp`)

`_retry_n_operation::start` calls `start_initial`, which performs the first
`connect`/`start` of the input sender (attempt 0).  On `set_error` of
attempt `i`, `_retry_n_state::retry_or_fail` increments `current_attempt_`
to `i + 1`; if `current_attempt_ >= max_attempts_` the error is forwarded to
the outer receiver, otherwise `retry()` connects and starts attempt `i + 1`.
Value and stopped completions are forwarded unchanged.  `outcome i` is the
completion the `i`-th connected operation delivers. -/

/-- Runs `retry_n` from attempt `i` onward; returns the completion forwarded
to the outer receiver and the number of `connect` invocations performed from
attempt `i` on. -/
def retryNFrom {ε α : Type} (outcome : Nat → Completion ε α)
    (maxAttempts : Nat) (i : Nat) : Completion ε α × Nat :=
  match outcome i with
  | .value vs => (.value vs, 1)
  | .stopped => (.stopped, 1)
  | .error e =>
    if _h : i + 1 < maxAttempts then
      let r := retryNFrom outcome maxAttempts (i + 1)
      (r.1, r.2 + 1)
    else (.error e, 1)
termination_by maxAttempts - i

/-- A full run of `retry_n(s, maxAttempts)`: the completion delivered to the
outer receiver, paired with the total number of times `s.connect` was
invoked. -/
def retryNRun {ε α : Type} (outcome : Nat → Completion ε α)
    (maxAttempts : Nat) : Completion ε α × Nat :=
  retryNFrom outcome maxAttempts 0

/-! ## Lock-free bounded MPMC queue (`lock_free_queue.hpp`)

State: `head_`, `tail_`, and per-slot `version` counters (initially
`version[i] = i`).  `try_push` reads `tail`, inspects slot
`tail % Capacity`'s version and the signed difference `version - tail`:
zero means the slot is writable (claim it, store the value, publish
`version = tail + 1`); negative means the queue is full (return `false`);
positive occurs only under concurrent interference (re-read and retry),
modelled by `none`, and proved unreachable from well-formed sequential
states. -/

/-- The queue state: `cap` is the `Capacity` template parameter (1024 for
the schedulers' submission queues). -/
structure LFQueue (α : Type) where
  cap : Nat
  versions : List Nat
  storage : List (Option α)
  head : Nat
  tail : Nat
deriving DecidableEq

/-- `lock_free_bounded_queue::try_push`, first loop iteration (subsequent
iterations require a concurrent `tail` change, impossible sequentially):
`some (true, q2)` models a successful push, `some (false, q)` the full-queue
failure, `none` the concurrent-retry branch. -/
def LFQueue.tryPush {α : Type} (q : LFQueue α) (x : α) :
    Option (Bool × LFQueue α) :=
  let s := q.tail % q.cap
  let ver := q.versions.getD s 0
  if ver = q.tail then
    some (true,
      { q with
        versions := q.versions.set s (q.tail + 1),
        storage := q.storage.set s (some x),
        tail := q.tail + 1 })
  else if ver < q.tail then
    some (false, q)
  else
    none

/-- Sequential well-formedness of a queue state, as established by the
constructor and preserved by `try_push`/`try_pop`: for every pending global
position `p = head + i` within the capacity window, a filled position
(`p < tail`) has published `version = p + 1` and an empty one
(`tail ≤ p`) has `version = p`. -/
def LFQueue.wf {α : Type} (q : LFQueue α) : Prop :=
  0 < q.cap ∧ q.versions.length = q.cap ∧ q.storage.length = q.cap ∧
  q.head ≤ q.tail ∧ q.tail ≤ q.head + q.cap ∧
  ∀ i < q.cap,
    (q.head + i < q.tail →
      q.versions.getD ((q.head + i) % q.cap) 0 = q.head + i + 1) ∧
    (q.tail ≤ q.head + i →
      q.versions.getD ((q.head + i) % q.cap) 0 = q.head + i)

instance {α : Type} (q : LFQueue α) : Decidable q.wf := by
  unfold LFQueue.wf
  infer_instance

/-- The distinguished error of the non-blocking `try_schedule` path
(`try_scheduler.hpp`'s `would_block_t`). -/
inductive SchedulerError where
  | wouldBlock
deriving DecidableEq

/-- Observable outcome of `_try_operation::start` for the run-loop and
thread-pool try-schedulers: the submission queue afterwards, the completion
delivered synchronously during `start()` (if any), and whether the enqueued
continuation was invoked during `start()`. -/
structure TryOpStartResult (κ : Type) where
  queue : LFQueue κ
  immediate : Option (Completion SchedulerError Unit)
  continuationInvoked : Bool
deriving DecidableEq

/-- `run_loop::run_loop_scheduler::_try_schedule_sender::_try_operation::start`
(and the identically structured thread-pool variant): `try_push` the
continuation; on success return and complete later from the run loop; on
failure deliver `set_error(would_block_t{})` at once.  In neither case is
the continuation itself invoked during `start()`. -/
def tryOperationStart {κ : Type} (q : LFQueue κ) (cont : κ) :
    Option (TryOpStartResult κ) :=
  match q.tryPush cont with
  | none => none
  | some (true, q2) =>
    some { queue := q2, immediate := none, continuationInvoked := false }
  | some (false, _) =>
    some { queue := q, immediate := some (.error .wouldBlock),
           continuationInvoked := false }

/-! ## Work-stealing scheduler submission (`work_stealing_scheduler.hpp`) -/

/-- `processor_context::try_push_local`'s bound (`local_queue_max`). -/
def localQueueMax : Nat := 256

/-- `processor_context::try_push_local`: reject when the local deque holds
`local_queue_max` (256) entries or more, otherwise push at the back.
(The try-lock failure path requires concurrent contention and does not arise
sequentially.) -/
def tryPushLocal {τ : Type} (deque : List τ) (t : τ) : Option (List τ) :=
  if localQueueMax ≤ deque.length then none else some (deque ++ [t])

/-- The loop inside `work_stealing_scheduler::try_submit`: starting from
round-robin processor `startProc`, try `try_push_local` on each of the
`procs.length` processors; succeed at the first that accepts, fail with
`false` (never falling back to the global queue) when all reject. -/
def trySubmitLoop {τ : Type} (procs : List (List τ)) (startProc : Nat)
    (t : τ) (i : Nat) : Bool × List (List τ) :=
  if _h : i < procs.length then
    let pid := (startProc + i) % procs.length
    match tryPushLocal (procs.getD pid []) t with
    | some d2 => (true, procs.set pid d2)
    | none => trySubmitLoop procs startProc t (i + 1)
  else (false, procs)
termination_by procs.length - i

/-- `work_stealing_scheduler::try_submit`: run the round-robin loop from
offset 0. -/
def wssTrySubmit {τ : Type} (procs : List (List τ)) (startProc : Nat)
    (t : τ) : Bool × List (List τ) :=
  trySubmitLoop procs startProc t 0

/-- Observable outcome of the work-stealing
`_try_schedule_sender::_try_operation::start`. -/
structure WssTryStartResult (τ : Type) where
  procs : List (List τ)
  immediate : Option (Completion SchedulerError Unit)
  continuationInvoked : Bool

/-- `work_stealing_scheduler_handle::_try_schedule_sender::_try_operation::start`:
`try_submit` the continuation; if it fails, deliver
`set_error(would_block_t{})`; the continuation is not invoked during
`start()` on either path. -/
def wssTryOperationStart {τ : Type} (procs : List (List τ)) (startProc : Nat)
    (cont : τ) : WssTryStartResult τ :=
  let sub := wssTrySubmit procs startProc cont
  if sub.1 then
    { procs := sub.2, immediate := none, continuationInvoked := false }
  else
    { procs := sub.2, immediate := some (.error .wouldBlock),
      continuationInvoked := false }

/-! ## Theorems -/

/-- C1.  The claim states that `join`'s value completion is delivered only
once the association count has reached zero (successful `try_associate`
count equals `disassociate` count).  The code violates this: on a fresh
scope, after a single successful `try_associate()` and no `disassociate()`,
starting the `join()` sender's operation delivers `set_value` immediately
while the count is still 1 — `join_operation::start`'s else-branch completes
the receiver instead of storing it, contradicting the documented transition
`joining --count reaches 0--> joined` and the branch's own comment. -/
theorem counting_scope_join_completes_with_pending_association :
    (tryAssociateImpl Scope.fresh).1 = true ∧
    (joinOperationStart (tryAssociateImpl Scope.fresh).2).valueDelivered = true ∧
    (joinOperationStart (tryAssociateImpl Scope.fresh).2).scope.count = 1 := by
  decide

/-- C3.  `sync_wait` returns the tuple of values when the sender completes
on the value channel, the empty optional when it completes on the stopped
channel, and rethrows the propagated error on the calling thread when it
completes on the error channel. -/
theorem sync_wait_channel_dispatch {ε α : Type} (vs : List α) (e : ε) :
    syncWait (Completion.value (ε := ε) vs) = .ok (some vs) ∧
    syncWait (Completion.stopped (ε := ε) (α := α)) = .ok none ∧
    syncWait (Completion.error (α := α) e) = .error e :=
  ⟨rfl, rfl, rfl⟩

/-- C4.  For `sender | then(f)`: when the underlying sender value-completes
with arguments `x`, either `f x` is delivered as the downstream value
completion (an empty value completion when `f` returns void), or the
exception thrown by `f` is delivered as the downstream error completion. -/
theorem then_value_result_or_error {ε α : Type}
    (f : List α → Except ε (Option α)) (x : List α) :
    (∃ b, f x = .ok (some b) ∧ thenReceiverTransform f (.value x) = .value [b]) ∨
    (f x = .ok none ∧ thenReceiverTransform f (.value x) = .value []) ∨
    (∃ e, f x = .error e ∧ thenReceiverTransform f (.value x) = .error e) := by
  cases h : f x with
  | error e =>
    exact .inr (.inr ⟨e, rfl, by simp [thenReceiverTransform, h]⟩)
  | ok ob =>
    cases ob with
    | none => exact .inr (.inl ⟨rfl, by simp [thenReceiverTransform, h]⟩)
    | some b => exact .inl ⟨b, rfl, by simp [thenReceiverTransform, h]⟩

/-- C7, counterexample.  The claim states that `spawn`'s fire-and-forget
receiver surfaces an error completion by terminating the process, matching
`start_detached`'s error policy.  At the concrete input below (a fresh scope
and an inner sender completing with error 7), the spawn receiver's effect is
a silent no-op — `spawn_receiver::set_error` has an empty body — whereas
`_start_detached_receiver::set_error` does terminate, so the claimed policy
match is false. -/
theorem spawn_error_policy_counterexample :
    (spawnRun (ε := Nat) (α := Nat) Scope.fresh (.error 7)).2 = Effect.noop ∧
    startDetachedReceiverEffect (Completion.error (α := Nat) (7 : Nat)) =
      Effect.terminate ∧
    (spawnRun (ε := Nat) (α := Nat) Scope.fresh (.error 7)).2 ≠
      startDetachedReceiverEffect (Completion.error (α := Nat) (7 : Nat)) := by
  decide

/-- C7, amended.  `spawn(sndr, token)` connects the associated sender to a
fire-and-forget receiver on which every completion — value, stopped, and
also error — is a no-op (the error is silently discarded, unlike
`start_detached`, which terminates), then starts the operation without
waiting; the association taken at connect time is released by the time the
spawned work completes, so the scope's count is unchanged. -/
theorem spawn_fire_and_forget_all_noop {ε α : Type} (s : Scope)
    (inner : Completion ε α) :
    (spawnRun s inner).2 = Effect.noop ∧ (spawnRun s inner).1.count = s.count := by
  have heff : ∀ c : Completion ε α, spawnReceiverEffect c = Effect.noop := by
    intro c; cases c <;> rfl
  cases hs : s.state <;>
    simp [spawnRun, tryAssociateImpl, disassociateImpl, hs, heff]

/-- C8, counterexample.  The claim states that `token.wrap(s)` returns a
sender whose receiver injects the scope's stop token into the environment
seen by the inner sender.  At the concrete input below (downstream
environment carrying stop token 0, scope stop token 1), the environment the
inner sender observes is the downstream environment unchanged —
`stop_receiver::get_env` merely forwards `get_env(rcvr_)` — not the
environment with the scope's token injected, so the claim is false. -/
theorem wrap_env_injection_counterexample :
    (wrapConnectRun (ε := Nat) (α := Nat) 1 false { stopTokenId := 0 }
        (.value [5])).innerEnv = { stopTokenId := 0 } ∧
    wrapEnvClaimed { stopTokenId := 0 } 1 = { stopTokenId := 1 } ∧
    (wrapConnectRun (ε := Nat) (α := Nat) 1 false { stopTokenId := 0 }
        (.value [5])).innerEnv ≠ wrapEnvClaimed { stopTokenId := 0 } 1 := by
  decide

/-- C8, amended.  `token.wrap(s)` returns a sender whose receiver forwards
the downstream receiver's environment unchanged (the scope's stop token is
not injected), and which delivers `set_stopped` instead of forwarding the
value completion whenever the scope's stop token is stop-requested at the
time the inner sender value-completes; value completions pass through when
no stop was requested, and error and stopped completions are always
forwarded. -/
theorem wrap_forwards_env_and_downgrades_on_stop {ε α : Type} (sid : Nat)
    (req : Bool) (env : Env) (vs : List α) (e : ε) (inner : Completion ε α) :
    (wrapConnectRun sid req env inner).innerEnv = env ∧
    (wrapConnectRun (ε := ε) (α := α) sid true env (.value vs)).downstream =
      .stopped ∧
    (wrapConnectRun (ε := ε) (α := α) sid false env (.value vs)).downstream =
      .value vs ∧
    (wrapConnectRun (α := α) sid req env (.error e)).downstream = .error e ∧
    (wrapConnectRun (ε := ε) (α := α) sid req env .stopped).downstream =
      .stopped := by
  refine ⟨rfl, rfl, rfl, rfl, rfl⟩

/-- C9.  `just_error(e) | upon_error(identity) | sync_wait()` yields `e`
unwrapped onto the value channel: `sync_wait` returns the engaged optional
holding exactly `e`, and no error is thrown. -/
theorem just_error_upon_error_identity_sync_wait {α : Type} (e : α) :
    syncWait (uponErrorTransform (fun e2 => .ok (some e2))
      (justErrorCompletion (ε := α) (α := α) e)) = .ok (some [e]) :=
  rfl

/-- C10.  For `bulk_chunked(policy, shape, f)` over a value-completing
sender: whenever `shape > 0` the callable is invoked exactly once, with
`begin = 0` and `end = shape` (one chunk covering the whole range); with
`shape = 0` it is not invoked at all; and the behaviour is identical for
every execution policy. -/
theorem bulk_chunked_single_chunk {ε α : Type} (pol : ExecPolicy)
    (shape : Nat) (f : Nat → Nat → List α → Except ε Unit) (args : List α) :
    (bulkChunkedSetValue pol (shape + 1) f args).1 = [(0, shape + 1)] ∧
    (bulkChunkedSetValue pol 0 f args).1 = [] ∧
    bulkChunkedSetValue pol shape f args =
      bulkChunkedSetValue .seq shape f args := by
  refine ⟨?_, rfl, ?_⟩
  · cases h : f 0 (shape + 1) args <;>
      simp [bulkChunkedSetValue, h]
  · cases pol <;> rfl

/-- Helper for C2: running the remaining child completions from any
intermediate `when_all` state in which every already-completed child's slot
is filled with its value emits the aggregated values in declaration
order. -/
theorem whenAllRunChildren_emits_ofFn {α : Type} [Inhabited α] {n : Nat}
    (v : Fin n → α) :
    ∀ (remaining : List (Fin n)) (st : WhenAllState n α),
      remaining ≠ [] →
      remaining.Nodup →
      st.errorOccurred = false →
      st.completed + remaining.length = n →
      (∀ j, j ∉ remaining → st.slots j = some (v j)) →
      whenAllRunChildren v remaining st = some (List.ofFn v) := by
  intro remaining
  induction remaining with
  | nil => intro st hne; exact absurd rfl hne
  | cons i rest ih =>
    intro st _ hnd herr hcount hslots
    have hndrest : rest.Nodup := (List.nodup_cons.mp hnd).2
    have hinotrest : i ∉ rest := (List.nodup_cons.mp hnd).1
    by_cases hrest : rest = []
    · subst hrest
      have hc : st.completed + 1 = n := by simpa using hcount
      have hfill : ∀ j, Function.update st.slots i (some (v i)) j = some (v j) := by
        intro j
        by_cases hji : j = i
        · subst hji; simp [Function.update]
        · have : j ∉ [i] := by simp [hji]
          rw [Function.update_noteq hji]
          exact hslots j this
      simp only [whenAllRunChildren, whenAllChildSetValue, hc, herr]
      simp only [and_self, if_pos, true_and]
      have : whenAllSendValues n (Function.update st.slots i (some (v i))) =
          List.ofFn v := by
        rw [whenAllSendValues, List.ofFn_eq_map]
        exact List.map_congr_left fun j _ => by rw [hfill j]; rfl
      simp [this, hc]
    · have hcount2 : st.completed + (rest.length + 1) = n := by simpa using hcount
      have hc : st.completed + 1 ≠ n := by
        have hlen : 0 < rest.length := List.length_pos.mpr hrest
        omega
      have hstep : whenAllRunChildren v (i :: rest) st =
          whenAllRunChildren v rest
            { slots := Function.update st.slots i (some (v i)),
              completed := st.completed + 1, errorOccurred := st.errorOccurred } := by
        simp [whenAllRunChildren, whenAllChildSetValue, hc]
      rw [hstep]
      refine ih _ hrest hndrest herr ?_ ?_
      · show st.completed + 1 + rest.length = n
        omega
      · intro j hj
        show Function.update st.slots i (some (v i)) j = some (v j)
        by_cases hji : j = i
        · subst hji; simp [Function.update]
        · rw [Function.update_noteq hji]
          exact hslots j (by simp [hji, hj])

/-- C2.  For `when_all(s₁…sₙ)` with all children value-completing — in any
completion order, modelled as a permutation of the child indices — the
downstream value completion's argument tuple equals `(v₁, …, vₙ)` in child
declaration order; and `when_all()` on zero children completes immediately
with an empty value completion. -/
theorem when_all_declaration_order_aggregation {α : Type} [Inhabited α]
    {n : Nat} (v : Fin n → α) (order : List (Fin n))
    (hperm : order.Perm (List.finRange n)) :
    whenAllStart n v order = some (List.ofFn v) := by
  by_cases hn : n = 0
  · subst hn
    simp [whenAllStart, List.ofFn_zero]
  · rw [whenAllStart, if_neg hn]
    refine whenAllRunChildren_emits_ofFn v order (whenAllInitState n α) ?_ ?_ rfl ?_ ?_
    · intro h0
      have := hperm.length_eq
      simp [h0, List.length_finRange] at this
      exact hn this.symm
    · exact hperm.nodup_iff.mpr (List.nodup_finRange n)
    · have := hperm.length_eq
      simp [List.length_finRange] at this
      simp [whenAllInitState, this]
    · intro j hj
      exact absurd (hperm.mem_iff.mpr (List.mem_finRange j)) hj

/-- C2, witness: two children with values 10 and 20 completing in reverse
declaration order (child 1 first) still aggregate as `(10, 20)`. -/
theorem when_all_declaration_order_aggregation_witness :
    ([(1 : Fin 2), 0].Perm (List.finRange 2)) ∧
      whenAllStart 2 (fun i : Fin 2 => if i.val = 0 then (10 : Nat) else 20)
        [1, 0] = some [10, 20] := by
  refine ⟨by decide, ?_⟩
  have h := when_all_declaration_order_aggregation
    (fun i : Fin 2 => if i.val = 0 then (10 : Nat) else 20) [1, 0] (by decide)
  exact h.trans (by decide)

/-- Helper for C5: the facts a run of `retry_n` from attempt `i` satisfies —
at least one connect is performed, the forwarded completion is that of the
last attempted connect, all earlier attempted connects ended in error, the
connect count is bounded, and an error result means the attempt budget was
exhausted. -/
def RetryNFromSpec {ε α : Type} (o : Nat → Completion ε α) (m i : Nat) : Prop :=
  1 ≤ (retryNFrom o m i).2 ∧
  (retryNFrom o m i).1 = o (i + (retryNFrom o m i).2 - 1) ∧
  (∀ j, i ≤ j → j + 1 < i + (retryNFrom o m i).2 → (o j).isError = true) ∧
  (retryNFrom o m i).2 ≤ max (m - i) 1 ∧
  ((retryNFrom o m i).1.isError = true → m ≤ i + (retryNFrom o m i).2)

/-- Helper for C5: proof of `RetryNFromSpec` for every starting attempt. -/
theorem retryNFrom_spec {ε α : Type} (o : Nat → Completion ε α) (m i : Nat) :
    RetryNFromSpec o m i := by
  have H : ∀ d i, m - i = d → RetryNFromSpec o m i := by
    intro d
    induction d using Nat.strong_induction_on with
    | _ d ih =>
      intro i _
      unfold RetryNFromSpec
      cases ho : o i with
      | value vs =>
        have heq : retryNFrom o m i = (Completion.value vs, 1) := by
          rw [retryNFrom.eq_def, ho]
        rw [heq]
        exact ⟨le_refl 1, by simpa using ho.symm, by intro j h1 h2; omega,
          le_max_right _ 1, by simp [Completion.isError]⟩
      | stopped =>
        have heq : retryNFrom o m i = (Completion.stopped, 1) := by
          rw [retryNFrom.eq_def, ho]
        rw [heq]
        exact ⟨le_refl 1, by simpa using ho.symm, by intro j h1 h2; omega,
          le_max_right _ 1, by simp [Completion.isError]⟩
      | error e =>
        by_cases hlt : i + 1 < m
        · have heq : retryNFrom o m i =
              ((retryNFrom o m (i + 1)).1, (retryNFrom o m (i + 1)).2 + 1) := by
            rw [retryNFrom.eq_def, ho]
            simp [hlt]
          have hrec := ih (m - (i + 1)) (by omega) (i + 1) rfl
          unfold RetryNFromSpec at hrec
          obtain ⟨h1, h2, h3, h4, h5⟩ := hrec
          rw [heq]
          refine ⟨by omega, ?_, ?_, ?_, ?_⟩
          · show (retryNFrom o m (i + 1)).1 =
              o (i + ((retryNFrom o m (i + 1)).2 + 1) - 1)
            rw [h2]
            congr 1
            omega
          · intro j hij hjlt
            rcases Nat.eq_or_lt_of_le hij with hji | hji
            · rw [← hji, ho]
              rfl
            · exact h3 j (by omega) (by omega)
          · have e1 : max (m - (i + 1)) 1 = m - (i + 1) :=
              Nat.max_eq_left (by omega)
            have e2 : max (m - i) 1 = m - i := Nat.max_eq_left (by omega)
            rw [e1] at h4
            rw [e2]
            omega
          · intro hE
            have := h5 hE
            omega
        · have heq : retryNFrom o m i = (Completion.error e, 1) := by
            rw [retryNFrom.eq_def, ho]
            simp [hlt]
          rw [heq]
          exact ⟨le_refl 1, by simpa using ho.symm, by intro j h1 h2; omega,
            le_max_right _ 1, by intro h2; omega⟩
  exact H (m - i) i rfl

/-- C5, counterexample.  The claim states that `retry_n(s, k)` invokes the
sender's `connect` at most `k` times for every non-negative `k`.  With
`k = 0` and a sender that always errors, `start_initial` still connects and
starts one attempt before any budget check, so exactly one `connect`
occurs — more than the claimed bound of zero. -/
theorem retry_n_zero_attempts_counterexample :
    (retryNRun (fun _ => Completion.error (ε := Nat) (α := Nat) 0) 0).2 = 1 ∧
    ¬((retryNRun (fun _ => Completion.error (ε := Nat) (α := Nat) 0) 0).2 ≤ 0) := by
  have heq : retryNRun (fun _ => Completion.error (ε := Nat) (α := Nat) 0) 0 =
      (Completion.error 0, 1) := by
    rw [retryNRun, retryNFrom.eq_def]
    simp
  rw [heq]
  exact ⟨rfl, by omega⟩

/-- C5, amended.  `retry_n(s, k)` invokes `s`'s `connect` at most
`max k 1` times (one attempt happens even when `k = 0`); it value-completes
iff one of the attempted invocations value-completed; and when `k ≥ 1` and
every attempt errors, exactly `k` connects occur and the `k`-th (last
observed) error is surfaced on the outer error channel. -/
theorem retry_n_attempt_semantics {ε α : Type} (o : Nat → Completion ε α)
    (k : Nat) :
    (retryNRun o k).2 ≤ max k 1 ∧
    ((retryNRun o k).1.isValue = true ↔
      ∃ j, j < (retryNRun o k).2 ∧ (o j).isValue = true) ∧
    (1 ≤ k → (∀ j, j < k → (o j).isError = true) →
      (retryNRun o k).2 = k ∧ (retryNRun o k).1 = o (k - 1)) := by
  have hspec := retryNFrom_spec o k 0
  unfold RetryNFromSpec at hspec
  obtain ⟨h1, h2, h3, h4, h5⟩ := hspec
  rw [retryNRun] at *
  have hval_err : ∀ c : Completion ε α,
      c.isValue = true → c.isError = true → False := by
    intro c
    cases c <;> simp [Completion.isValue, Completion.isError]
  refine ⟨by simpa using h4, ⟨?_, ?_⟩, ?_⟩
  · intro hv
    refine ⟨(retryNFrom o k 0).2 - 1, by omega, ?_⟩
    have hidx : 0 + (retryNFrom o k 0).2 - 1 = (retryNFrom o k 0).2 - 1 := by
      omega
    rw [hidx] at h2
    rw [← h2]
    exact hv
  · rintro ⟨j, hj, hv⟩
    by_cases hjl : j + 1 < (retryNFrom o k 0).2
    · exact absurd hv (by
        have := h3 j (by omega) (by omega)
        intro hv2
        exact hval_err _ hv2 this)
    · have hj2 : j = (retryNFrom o k 0).2 - 1 := by omega
      have hidx : 0 + (retryNFrom o k 0).2 - 1 = (retryNFrom o k 0).2 - 1 := by
        omega
      rw [hidx] at h2
      rw [h2, ← hj2]
      exact hv
  · intro hk hall
    have hmax : max k 1 = k := Nat.max_eq_left hk
    have hc_le : (retryNFrom o k 0).2 ≤ k := by
      have h4x : (retryNFrom o k 0).2 ≤ max k 1 := by simpa using h4
      rw [hmax] at h4x
      exact h4x
    have hidx : 0 + (retryNFrom o k 0).2 - 1 = (retryNFrom o k 0).2 - 1 := by
      omega
    rw [hidx] at h2
    have herr : ((retryNFrom o k 0).1).isError = true := by
      rw [h2]
      exact hall _ (by omega)
    have hc_ge := h5 herr
    have hc : (retryNFrom o k 0).2 = k := by omega
    refine ⟨hc, ?_⟩
    rw [h2, hc]

/-- C5, witness: a sender that always errors with `0`, retried with
`k = 2`, performs exactly 2 connects and surfaces the last error. -/
theorem retry_n_attempt_semantics_witness :
    ((1 : Nat) ≤ 2 ∧
      (∀ j, j < 2 →
        ((fun _ => Completion.error (ε := Nat) (α := Nat) 0) j).isError = true)) ∧
    (retryNRun (fun _ => Completion.error (ε := Nat) (α := Nat) 0) 2).2 = 2 ∧
    (retryNRun (fun _ => Completion.error (ε := Nat) (α := Nat) 0) 2).1 =
      Completion.error 0 := by
  have h := retry_n_attempt_semantics
    (fun _ => Completion.error (ε := Nat) (α := Nat) 0) 2
  have h3 := h.2.2 (by omega) (fun j _ => rfl)
  exact ⟨⟨by omega, fun j _ => rfl⟩, h3.1, h3.2⟩

/-- Helper for C6: `try_push` on a full, sequentially well-formed queue of
capacity at least 2 observes a slot version strictly below `tail` and
reports failure without modifying the queue.  (The schedulers instantiate
the queue at capacity 1024.) -/
theorem tryPush_full {α : Type} (q : LFQueue α) (x : α) (hwf : q.wf)
    (hcap : 2 ≤ q.cap) (hfull : q.tail = q.head + q.cap) :
    q.tryPush x = some (false, q) := by
  obtain ⟨hpos, hvlen, hslen, hht, htc, hinv⟩ := hwf
  have hfilled : q.versions.getD ((q.head + 0) % q.cap) 0 = q.head + 0 + 1 :=
    (hinv 0 (by omega)).1 (by omega)
  have hver : q.versions.getD (q.tail % q.cap) 0 = q.head + 1 := by
    have hmod : q.tail % q.cap = q.head % q.cap := by
      rw [hfull, Nat.add_mod_right]
    rw [hmod]
    simpa using hfilled
  rw [LFQueue.tryPush]
  simp only [hver]
  rw [if_neg (by omega), if_pos (by omega)]

/-- Helper for C6: the work-stealing `try_submit` round-robin loop fails and
leaves every processor's deque untouched when all deques are at the 256-entry
bound. -/
theorem trySubmitLoop_all_full {τ : Type} (procs : List (List τ))
    (startProc : Nat) (t : τ)
    (hfull : ∀ d ∈ procs, localQueueMax ≤ d.length) :
    ∀ i, trySubmitLoop procs startProc t i = (false, procs) := by
  have H : ∀ d i, procs.length - i ≤ d →
      trySubmitLoop procs startProc t i = (false, procs) := by
    intro d
    induction d with
    | zero =>
      intro i hd
      rw [trySubmitLoop.eq_def]
      rw [dif_neg (by omega)]
    | succ d ih =>
      intro i hd
      rw [trySubmitLoop.eq_def]
      by_cases hi : i < procs.length
      · rw [dif_pos hi]
        have hlt : (startProc + i) % procs.length < procs.length :=
          Nat.mod_lt _ (by omega)
        have hmem : procs.getD ((startProc + i) % procs.length) [] ∈ procs := by
          rw [List.getD_eq_getElem procs [] hlt]
          exact List.getElem_mem hlt
        have hnone :
            tryPushLocal (procs.getD ((startProc + i) % procs.length) []) t =
              none := by
          rw [tryPushLocal, if_pos (hfull _ hmem)]
        simp only [hnone]
        exact ih (i + 1) (by omega)
      · rw [dif_neg hi]
  intro i
  exact H (procs.length - i) i le_rfl

/-- C6.  When the non-blocking submission queue is full at the time a
`try_schedule` operation is started, the operation completes with the
distinguished `would_block` error and the enqueued continuation is never
invoked (it is not even stored: the queue is left unchanged).  The first
conjunct covers the run-loop and thread-pool try-schedulers (both submit
through the lock-free bounded queue); the second covers the work-stealing
scheduler, whose `try_submit` fails once every processor's local deque holds
256 entries. -/
theorem try_schedule_full_queue_would_block {κ τ : Type} (q : LFQueue κ)
    (cont : κ) (procs : List (List τ)) (startProc : Nat) (contW : τ)
    (hwf : q.wf) (hcap : 2 ≤ q.cap) (hfull : q.tail = q.head + q.cap)
    (hprocs : ∀ d ∈ procs, localQueueMax ≤ d.length) :
    tryOperationStart q cont =
      some { queue := q, immediate := some (.error .wouldBlock),
             continuationInvoked := false } ∧
    wssTryOperationStart procs startProc contW =
      { procs := procs, immediate := some (.error .wouldBlock),
        continuationInvoked := false } := by
  constructor
  · rw [tryOperationStart, tryPush_full q cont hwf hcap hfull]
  · rw [wssTryOperationStart, wssTrySubmit,
      trySubmitLoop_all_full procs startProc contW hprocs 0]
    rfl

/-- C6, witness: a concrete full lock-free queue of capacity 2 and a single
work-stealing processor whose deque holds exactly 256 tasks. -/
theorem try_schedule_full_queue_would_block_witness :
    (LFQueue.wf
        { cap := 2, versions := [1, 2], storage := [some (), some ()],
          head := 0, tail := 2 : LFQueue Unit } ∧
      (∀ d ∈ [List.replicate 256 ()], localQueueMax ≤ d.length)) ∧
    tryOperationStart
        { cap := 2, versions := [1, 2], storage := [some (), some ()],
          head := 0, tail := 2 : LFQueue Unit } () =
      some { queue := { cap := 2, versions := [1, 2],
                        storage := [some (), some ()], head := 0, tail := 2 },
             immediate := some (.error .wouldBlock),
             continuationInvoked := false } ∧
    wssTryOperationStart [List.replicate 256 ()] 3 () =
      { procs := [List.replicate 256 ()],
        immediate := some (.error .wouldBlock),
        continuationInvoked := false } := by
  have hwf : LFQueue.wf
      { cap := 2, versions := [1, 2], storage := [some (), some ()],
        head := 0, tail := 2 : LFQueue Unit } := by decide
  have hprocs : ∀ d ∈ [List.replicate 256 ()], localQueueMax ≤ d.length := by
    intro d hd
    simp only [List.mem_singleton] at hd
    subst hd
    rw [List.length_replicate]
    decide
  have h := try_schedule_full_queue_would_block
    { cap := 2, versions := [1, 2], storage := [some (), some ()],
      head := 0, tail := 2 : LFQueue Unit } ()
    [List.replicate 256 ()] 3 () hwf (by decide) (by decide) hprocs
  exact ⟨⟨hwf, hprocs⟩, h.1, h.2⟩

end Flow
